import Mathlib

/-!
Shallow embedding of the nba-ai-stats-analyzer metric pipeline (src/metrics.py
and the leaderboard selection of src/charts.py).

Modelling conventions:
* A pandas DataFrame of team-game rows is a `Table`: the list of column names
  that are present (pandas `df.columns`) plus a list of `Row` records.  Columns
  that a stage adds (`POSS`, `eFG`, `TS`) always exist as record fields; the
  `cols` list tracks which column names are visible to the column-presence
  check of `normalize_team_game_df`.
* Python floats are modelled as exact rationals (`ℚ`); `np.nan` produced by the
  `replace(0, np.nan)` / division idiom is modelled as `Option ℚ` with `none`
  for NaN.  The `replace([inf, -inf], nan)` steps are identities in exact
  arithmetic and are dropped.
* `pd.to_datetime` input is a `DateV`: either a raw string (as read from CSV)
  or an already-coerced datetime, modelled as an integer key that respects
  chronological order for ISO `YYYY-MM-DD` strings.
* Exceptions (`ValueError` raises) are modelled with `Except PipeError`; the
  constructors mirror the distinct error messages of the source
  (`Missing required columns`, `Invalid window format` / `Unsupported window`,
  and a date-parse failure inside `pd.to_datetime`).
* String operations (`startswith`, `split`, `int()` parsing) are modelled
  over the underlying character lists; Python `int(s)` is restricted to an
  optional minus sign followed by digits — exotic accepted forms such as
  surrounding whitespace or `+` signs are not modelled, no claim depends on
  them.
-/

deriving instance DecidableEq for Except

/-- Date values: either a raw string as loaded from CSV, or a coerced
datetime carrying a chronologically ordered integer key. -/
inductive DateV where
  | raw (s : String)
  | dt (t : ℤ)
deriving DecidableEq

/-- One team's boxscore line for one game (`TeamGameRow` of the spec).
The derived fields `poss`, `efg`, `ts` model the `POSS`, `eFG`, `TS`
columns, which pandas column assignment creates or overwrites. -/
structure Row where
  gameId : String
  gameDate : DateV
  teamId : ℤ
  teamAbbr : String
  pts : ℚ
  fga : ℚ
  fgm : ℚ
  fg3a : ℚ
  fg3m : ℚ
  fta : ℚ
  ftm : ℚ
  oreb : ℚ
  dreb : ℚ
  ast : ℚ
  tov : ℚ
  mins : ℚ
  poss : Option ℚ
  efg : Option ℚ
  ts : Option ℚ
deriving DecidableEq

/-- A DataFrame: the visible column names plus the rows. -/
structure Table where
  cols : List String
  rows : List Row
deriving DecidableEq

/-- Typed counterpart of the `ValueError`s raised by src/metrics.py. -/
inductive PipeError where
  | missingFields (cs : List String)
  | invalidWindow (w : String)
  | badDate (s : String)
deriving DecidableEq

/-- Splits a character list on a separator character (the character-level
behaviour of Python `str.split` with a one-character separator). -/
def splitChar (c : Char) : List Char → List (List Char)
  | [] => [[]]
  | a :: as =>
    if a = c then [] :: splitChar c as
    else
      match splitChar c as with
      | [] => [[a]]
      | g :: gs => (a :: g) :: gs

/-- Decimal value of a digit character, if it is one. -/
def digVal (c : Char) : Option ℕ :=
  if '0' ≤ c ∧ c ≤ '9' then some (c.toNat - 48) else none

/-- Accumulating decimal parse of a digit run. -/
def natOfDigitsGo (acc : ℕ) : List Char → Option ℕ
  | [] => some acc
  | c :: cs =>
    match digVal c with
    | some d => natOfDigitsGo (acc * 10 + d) cs
    | none => none

/-- A nonempty all-digit character run as a natural number. -/
def natOfDigits : List Char → Option ℕ
  | [] => none
  | c :: cs => natOfDigitsGo 0 (c :: cs)

/-- Model of Python `int(s)` restricted to an optional minus sign followed by
digits (the forms the window suffixes and dates exercise; exotic accepted
forms such as surrounding whitespace, `+`, or digit underscores are not
modelled). -/
def pyIntOfChars : List Char → Option ℤ
  | [] => none
  | c :: cs =>
    if c = '-' then (natOfDigits cs).map fun n => -(n : ℤ)
    else (natOfDigits (c :: cs)).map fun n => (n : ℤ)

/-- Boolean character-list prefix test (Python `str.startswith`). -/
def listPre : List Char → List Char → Bool
  | [], _ => true
  | _ :: _, [] => false
  | a :: as, b :: bs => decide (a = b) && listPre as bs

/-- Integer key of an ISO `YYYY-MM-DD` date string (model of the successful
path of `pd.to_datetime` on the strings produced by src/ingest.py). -/
def parseYMD (s : String) : Option ℤ :=
  match (splitChar '-' s.data).map natOfDigits with
  | [some y, some m, some d] => some ((y : ℤ) * 10000 + (m : ℤ) * 100 + (d : ℤ))
  | _ => none

/-- Sort key of a date value; after normalization every date is `DateV.dt`. -/
def dKey : DateV → ℤ
  | DateV.raw s => (parseYMD s).getD 0
  | DateV.dt t => t

/-- Coercion of one row's date by `pd.to_datetime`: already-parsed datetimes
are returned unchanged, raw strings are parsed or fail. -/
def coerceRow (r : Row) : Except PipeError Row :=
  match r.gameDate with
  | DateV.dt _ => Except.ok r
  | DateV.raw s =>
    match parseYMD s with
    | some t => Except.ok { r with gameDate := DateV.dt t }
    | none => Except.error (PipeError.badDate s)

/-- Error-propagating map over a list (the row-wise effect of a fallible
column transformation). -/
def mapE (f : α → Except ε β) : List α → Except ε (List β)
  | [] => Except.ok []
  | a :: as =>
    match f a with
    | Except.error e => Except.error e
    | Except.ok b =>
      match mapE f as with
      | Except.error e => Except.error e
      | Except.ok bs => Except.ok (b :: bs)

/-- The sixteen required columns of `normalize_team_game_df`. -/
def requiredCols : List String :=
  ["GAME_ID", "GAME_DATE", "TEAM_ID", "TEAM_ABBREVIATION",
   "PTS", "FGA", "FGM", "FG3A", "FG3M", "FTA", "FTM",
   "OREB", "DREB", "AST", "TOV", "MIN"]

/-- Model of `normalize_team_game_df`: collect every required column that is
absent, fail with the whole list if any; otherwise coerce the date column and
return a copy. -/
def normalizeTeamGameDf (tbl : Table) : Except PipeError Table :=
  let missing := requiredCols.filter fun c => decide (¬ c ∈ tbl.cols)
  if missing = [] then
    (mapE coerceRow tbl.rows).map fun rs => Table.mk tbl.cols rs
  else
    Except.error (PipeError.missingFields missing)

/-- Row-level effect of `add_possessions`: `POSS = FGA + 0.44*FTA - OREB + TOV`. -/
def possRow (r : Row) : Row :=
  { r with poss := some (r.fga + (44 : ℚ) / 100 * r.fta - r.oreb + r.tov) }

/-- Appends a column name if it is not already present (pandas column
assignment on the column list). -/
def insertCol (c : String) (cs : List String) : List String :=
  if c ∈ cs then cs else cs ++ [c]

/-- Model of `add_possessions`. -/
def addPossessions (tbl : Table) : Table :=
  Table.mk (insertCol ("POSS") tbl.cols) (tbl.rows.map possRow)

/-- Row-level effect of `add_shooting_metrics`: dividing by a denominator that
`replace(0, np.nan)` turned into NaN yields NaN, modelled as `none`. -/
def shootRow (r : Row) : Row :=
  { r with
    efg := if r.fga = 0 then none else some ((r.fgm + 1 / 2 * r.fg3m) / r.fga),
    ts := if r.fga + (44 : ℚ) / 100 * r.fta = 0 then none
          else some (r.pts / (2 * (r.fga + (44 : ℚ) / 100 * r.fta))) }

/-- Model of `add_shooting_metrics`. -/
def addShootingMetrics (tbl : Table) : Table :=
  Table.mk (insertCol ("TS") (insertCol ("eFG") tbl.cols)) (tbl.rows.map shootRow)

/-- Model of `prepare_team_games_for_metrics`:
normalize, then add possessions, then add shooting metrics. -/
def prepareTeamGamesForMetrics (tbl : Table) : Except PipeError Table :=
  (normalizeTeamGameDf tbl).map fun t => addShootingMetrics (addPossessions t)

/-- Parsed window specifier. -/
inductive WSpec where
  | season
  | lastN (n : ℤ)
deriving DecidableEq

/-- Window-string dispatch shared by `apply_time_window_team_games` and the
inline copy in `aggregate_team_with_defense`: the literal `SEASON`, else a
`LAST_` prefix whose piece after the first underscore must survive Python
`int()`, else an error.  `int()` failure and the final `raise` carry different
messages in the source but are both `InvalidWindowError` in the spec. -/
def parseWindow (w : String) : Except PipeError WSpec :=
  if w = "SEASON" then Except.ok WSpec.season
  else if listPre (("LAST_").data) w.data then
    match pyIntOfChars ((splitChar '_' w.data).getD 1 []) with
    | some n => Except.ok (WSpec.lastN n)
    | none => Except.error (PipeError.invalidWindow w)
  else Except.error (PipeError.invalidWindow w)

/-- Lexicographic "sort by key ascending, then dk descending" comparator used
to model `sort_values(["TEAM_ID", "GAME_DATE"], ascending=[True, False])`
(a stable multi-column lexsort in pandas). -/
def lexRel (key dk : α → ℤ) (a b : α) : Prop :=
  key a < key b ∨ (key a = key b ∧ dk b ≤ dk a)

instance (key dk : α → ℤ) : DecidableRel (lexRel key dk) := fun a b => by
  unfold lexRel; infer_instance

/-- Date-descending comparator (most recent first). -/
def dRel (dk : α → ℤ) (a b : α) : Prop := dk b ≤ dk a

instance (dk : α → ℤ) : DecidableRel (dRel dk) := fun a b => by
  unfold dRel; infer_instance

instance (key dk : α → ℤ) : IsTrans α (lexRel key dk) := by
  refine ⟨fun a b c hab hbc => ?_⟩
  rcases hab with h1 | ⟨h1, h2⟩ <;> rcases hbc with h3 | ⟨h3, h4⟩
  · exact Or.inl (h1.trans h3)
  · exact Or.inl (h3 ▸ h1)
  · exact Or.inl (h1 ▸ h3)
  · exact Or.inr ⟨h1.trans h3, h4.trans h2⟩

instance (key dk : α → ℤ) : IsTotal α (lexRel key dk) := by
  refine ⟨fun a b => ?_⟩
  rcases lt_trichotomy (key a) (key b) with h | h | h
  · exact Or.inl (Or.inl h)
  · rcases le_total (dk b) (dk a) with h2 | h2
    · exact Or.inl (Or.inr ⟨h, h2⟩)
    · exact Or.inr (Or.inr ⟨h.symm, h2⟩)
  · exact Or.inr (Or.inl h)

instance (dk : α → ℤ) : IsTrans α (dRel dk) :=
  ⟨fun _ _ _ h1 h2 => le_trans h2 h1⟩

instance (dk : α → ℤ) : IsTotal α (dRel dk) :=
  ⟨fun a b => le_total (dk b) (dk a)⟩

/-- Walk of `groupby(key).head`: keep an element when fewer than `bound` of
its key have been kept before it (`seen` counts the elements already
processed per key). -/
def ghGo (key : α → ℤ) (bound : ℤ → ℕ) (seen : ℤ → ℕ) : List α → List α
  | [] => []
  | a :: as =>
    if seen (key a) < bound (key a) then
      a :: ghGo key bound (fun u => if u = key a then seen u + 1 else seen u) as
    else
      ghGo key bound (fun u => if u = key a then seen u + 1 else seen u) as

/-- Model of `groupby(key, group_keys=False).head(n)`: for `n ≥ 0` the first
`n` rows of each group in the frame's current order; for `n < 0` all rows of
each group except its last `|n|` (pandas negative-`head` semantics). -/
def pdHead (key : α → ℤ) (n : ℤ) (l : List α) : List α :=
  if 0 ≤ n then ghGo key (fun _ => n.toNat) (fun _ => 0) l
  else ghGo key (fun t => (l.countP fun x => decide (key x = t)) - n.natAbs) (fun _ => 0) l

/-- Date sort key of a row. -/
def rowDk (r : Row) : ℤ := dKey r.gameDate

/-- Model of `apply_time_window_team_games`: sort by team then date
descending, then dispatch on the window string. -/
def applyTimeWindowTeamGames (df : Table) (w : String) : Except PipeError Table :=
  let sorted := List.insertionSort (lexRel Row.teamId rowDk) df.rows
  match parseWindow w with
  | Except.ok WSpec.season => Except.ok (Table.mk df.cols sorted)
  | Except.ok (WSpec.lastN n) => Except.ok (Table.mk df.cols (pdHead Row.teamId n sorted))
  | Except.error e => Except.error e

/-- A paired row produced by `pair_team_opponent`: the base row's identity and
"for" values plus the joined opponent row's identity and "against" values. -/
structure PRow where
  gameId : String
  gameDate : DateV
  teamId : ℤ
  teamAbbr : String
  ptsFor : ℚ
  possFor : Option ℚ
  oppTeamId : ℤ
  oppTeamAbbr : String
  ptsAgainst : ℚ
  possAgainst : Option ℚ
deriving DecidableEq

/-- One merged row of the self-join (base row `b`, opponent row `o`). -/
def mkPair (b o : Row) : PRow :=
  PRow.mk b.gameId b.gameDate b.teamId b.teamAbbr b.pts b.poss
    o.teamId o.teamAbbr o.pts o.poss

/-- Model of `pair_team_opponent`: inner self-merge on
`(GAME_ID, GAME_DATE)` (every base row paired with every row sharing both
keys, in order), then removal of self-pairs. -/
def pairTeamOpponent (rows : List Row) : List PRow :=
  (rows.flatMap fun b =>
      (rows.filter fun o =>
          decide (b.gameId = o.gameId ∧ b.gameDate = o.gameDate)).map (mkPair b)).filter
    fun p => decide (p.teamId ≠ p.oppTeamId)

/-- Date sort key of a paired row. -/
def pDk (p : PRow) : ℤ := dKey p.gameDate

/-- The pairing/sorting/windowing prefix of `aggregate_team_with_defense`. -/
def windowPaired (df : Table) (w : String) : Except PipeError (List PRow) :=
  let sorted := List.insertionSort (lexRel PRow.teamId pDk) (pairTeamOpponent df.rows)
  match parseWindow w with
  | Except.ok WSpec.season => Except.ok sorted
  | Except.ok (WSpec.lastN n) => Except.ok (pdHead PRow.teamId n sorted)
  | Except.error e => Except.error e

/-- Sum of a float column that may contain NaN: pandas `sum` skips NaN. -/
def sumOpt (l : List (Option ℚ)) : ℚ := (l.filterMap id).sum

/-- A ratio whose denominator was sent through `replace(0, np.nan)`. -/
def safeDiv (num den : ℚ) : Option ℚ :=
  if den = 0 then none else some (num / den)

/-- One output row of `aggregate_team_with_defense`. -/
structure AggRow where
  teamId : ℤ
  teamAbbr : String
  games : ℕ
  ptsFor : ℚ
  ptsAgainst : ℚ
  possFor : ℚ
  possAgainst : ℚ
  ortg : Option ℚ
  drtg : Option ℚ
  netRtg : Option ℚ
  pace : Option ℚ
deriving DecidableEq

/-- First-occurrence deduplication (the distinct group keys of a groupby). -/
def eraseDupsFirst [DecidableEq α] : List α → List α
  | [] => []
  | a :: as => a :: (eraseDupsFirst as).filter fun x => decide (x ≠ a)

/-- The aggregate row of one `(TEAM_ID, TEAM_ABBREVIATION)` group: sums of
the "for"/"against" columns over the group's windowed paired rows and the
derived ratings. -/
def aggRowFor (W : List PRow) (k : ℤ × String) : AggRow :=
  let G := W.filter fun p => decide (p.teamId = k.1 ∧ p.teamAbbr = k.2)
  let pf := (G.map PRow.ptsFor).sum
  let pa := (G.map PRow.ptsAgainst).sum
  let qf := sumOpt (G.map PRow.possFor)
  let qa := sumOpt (G.map PRow.possAgainst)
  AggRow.mk k.1 k.2 G.length pf pa qf qa
    (safeDiv (100 * pf) qf)
    (safeDiv (100 * pa) qa)
    (match safeDiv (100 * pf) qf, safeDiv (100 * pa) qa with
     | some x, some y => some (x - y)
     | _, _ => none)
    (safeDiv qf (G.length : ℚ))

/-- Model of `aggregate_team_with_defense`: pair, sort, window, then group by
`(TEAM_ID, TEAM_ABBREVIATION)` and compute sums and ratings per group. -/
def aggregateTeamWithDefense (df : Table) (w : String) : Except PipeError (List AggRow) :=
  (windowPaired df w).map fun W =>
    (eraseDupsFirst (W.map fun p => (p.teamId, p.teamAbbr))).map (aggRowFor W)

/-- Statement of claim C2's formulas for one aggregate output row `g` over
the windowed paired rows `W` (written from the spec's words, for comparison
with what `aggregateTeamWithDefense` computes): games played, the four sums,
offensive rating `100*sum(PTS_FOR)/sum(POSS_FOR)` (missing on zero
denominator), defensive rating with the denominator swapped to
possessions-against, net rating = offensive − defensive, and pace =
possessions-for over games. -/
def defenseFormulaSpec (W : List PRow) (g : AggRow) : Prop :=
  let G := W.filter fun p => decide (p.teamId = g.teamId ∧ p.teamAbbr = g.teamAbbr)
  g.games = G.length ∧
  g.ptsFor = (G.map PRow.ptsFor).sum ∧
  g.ptsAgainst = (G.map PRow.ptsAgainst).sum ∧
  g.possFor = sumOpt (G.map PRow.possFor) ∧
  g.possAgainst = sumOpt (G.map PRow.possAgainst) ∧
  g.ortg = (if sumOpt (G.map PRow.possFor) = 0 then none
            else some (100 * (G.map PRow.ptsFor).sum / sumOpt (G.map PRow.possFor))) ∧
  g.drtg = (if sumOpt (G.map PRow.possAgainst) = 0 then none
            else some (100 * (G.map PRow.ptsAgainst).sum / sumOpt (G.map PRow.possAgainst))) ∧
  (∀ x y, g.ortg = some x → g.drtg = some y → g.netRtg = some (x - y)) ∧
  g.pace = (if (g.games : ℚ) = 0 then none
            else some (sumOpt (G.map PRow.possFor) / (g.games : ℚ)))

/-- Concrete row with the given identity, points and possessions (remaining
counting stats zero). -/
def mkR (gid : String) (d : ℤ) (tid : ℤ) (ab : String) (p q : ℚ) : Row :=
  Row.mk gid (DateV.dt d) tid ab p 0 0 0 0 0 0 0 0 0 0 0 (some q) none none

/-- Team A of the two-team example game: 100 points, 95 possessions. -/
def ex8RowA : Row := mkR ("G1") 20240101 1 ("AAA") 100 95

/-- Team B of the two-team example game: 90 points, 95 possessions. -/
def ex8RowB : Row := mkR ("G1") 20240101 2 ("BBB") 90 95

/-- The single-game example table. -/
def ex8Tbl : Table := Table.mk requiredCols [ex8RowA, ex8RowB]

/-- Its paired rows after the team/date sort. -/
def exW8 : List PRow := [mkPair ex8RowA ex8RowB, mkPair ex8RowB ex8RowA]

/-- Its defense aggregate. -/
def exOut8 : List AggRow := [aggRowFor exW8 (1, "AAA"), aggRowFor exW8 (2, "BBB")]

/-- One-team, one-row table used to evaluate window strings. -/
def exC3Tbl : Table := Table.mk requiredCols [mkR ("G2") 20240105 1 ("AAA") 50 60]

/-- Two games of one team, used to evaluate a `LAST_1` window. -/
def exW4Tbl : Table :=
  Table.mk requiredCols
    [mkR ("G3") 20240101 1 ("AAA") 10 20, mkR ("G4") 20240102 1 ("AAA") 30 40]

/-- A table whose column list lacks `PTS`. -/
def exBadTbl : Table :=
  Table.mk (requiredCols.filter fun c => decide (c ≠ "PTS")) []

/-- A row with `FGA = 0` but nonzero `FTA` and `PTS`. -/
def cxRow : Row :=
  Row.mk ("G5") (DateV.dt 20240101) 1 ("AAA") 10 0 0 0 0 20 8 0 0 0 0 0 none none none

/-- Its one-row table. -/
def cxTbl : Table := Table.mk requiredCols [cxRow]

/-- The possessions example row: FGA=80, FTA=20, OREB=10, TOV=15. -/
def exPossRow : Row :=
  Row.mk ("G6") (DateV.dt 20240101) 1 ("AAA") 100 80 40 20 10 20 18 10 30 25 15 240
    none none none

/-- A raw table (string date, empty derived fields) accepted by the
normalizer. -/
def exPrepTbl : Table :=
  Table.mk requiredCols
    [Row.mk ("G7") (DateV.raw ("2024-01-02")) 1 ("AAA") 100 80 40 20 10 20 18 10 30 25 15 240
      none none none]

/-- The prepared form of `exPrepTbl`. -/
def exPrepOutTbl : Table :=
  Table.mk (requiredCols ++ [("POSS"), ("eFG"), ("TS")])
    [Row.mk ("G7") (DateV.dt 20240102) 1 ("AAA") 100 80 40 20 10 20 18 10 30 25 15 240
      (some ((469 : ℚ) / 5)) (some ((9 : ℚ) / 16)) (some ((125 : ℚ) / 222))]

/-- Two rows that share a game identifier but carry different dates. -/
def exC10Rows : List Row :=
  [mkR ("G9") 20240105 1 ("AAA") 80 70, mkR ("G9") 20240106 2 ("BBB") 75 70]

/-! Helper lemmas. -/

theorem mapE_ok_forall2 {f : α → Except ε β} :
    ∀ {l : List α} {l' : List β}, mapE f l = Except.ok l' →
      List.Forall₂ (fun a b => f a = Except.ok b) l l' := by
  intro l
  induction l with
  | nil =>
    intro l' h
    unfold mapE at h
    injection h with h
    rw [← h]
    exact List.Forall₂.nil
  | cons a as ih =>
    intro l' h
    unfold mapE at h
    cases hfa : f a with
    | error e => rw [hfa] at h; cases h
    | ok b =>
      rw [hfa] at h
      cases hrest : mapE f as with
      | error e => rw [hrest] at h; cases h
      | ok bs =>
        rw [hrest] at h
        injection h with h
        rw [← h]
        exact List.Forall₂.cons hfa (ih hrest)

theorem mapE_error_mem {f : α → Except ε β} :
    ∀ {l : List α} {e : ε}, mapE f l = Except.error e → ∃ a ∈ l, f a = Except.error e := by
  intro l
  induction l with
  | nil => intro e h; unfold mapE at h; cases h
  | cons a as ih =>
    intro e h
    unfold mapE at h
    cases hfa : f a with
    | error e' =>
      rw [hfa] at h
      injection h with h
      exact ⟨a, List.mem_cons_self a as, by rw [hfa, h]⟩
    | ok b =>
      rw [hfa] at h
      cases hrest : mapE f as with
      | error e' =>
        rw [hrest] at h
        injection h with h
        obtain ⟨x, hx, hfx⟩ := ih (by rw [hrest, h])
        exact ⟨x, List.mem_cons_of_mem a hx, hfx⟩
      | ok bs => rw [hrest] at h; cases h

theorem mapE_of_ok_id {f : α → Except ε α} :
    ∀ {l : List α}, (∀ a ∈ l, f a = Except.ok a) → mapE f l = Except.ok l := by
  intro l
  induction l with
  | nil => intro _; rfl
  | cons a as ih =>
    intro h
    unfold mapE
    rw [h a (List.mem_cons_self a as), ih fun x hx => h x (List.mem_cons_of_mem a hx)]

theorem coerceRow_ok_shape {a b : Row} (h : coerceRow a = Except.ok b) :
    ∃ t, b = { a with gameDate := DateV.dt t } := by
  cases hd : a.gameDate with
  | dt t =>
    refine ⟨t, ?_⟩
    simp only [coerceRow, hd] at h
    injection h with h
    cases a
    simp_all
  | raw s =>
    simp only [coerceRow, hd] at h
    cases hp : parseYMD s with
    | some t =>
      rw [hp] at h
      injection h with h
      exact ⟨t, h.symm⟩
    | none => rw [hp] at h; cases h

theorem coerceRow_error_shape {a : Row} {e : PipeError} (h : coerceRow a = Except.error e) :
    ∃ s, e = PipeError.badDate s := by
  cases hd : a.gameDate with
  | dt t => simp only [coerceRow, hd] at h; cases h
  | raw s =>
    simp only [coerceRow, hd] at h
    cases hp : parseYMD s with
    | some t => rw [hp] at h; cases h
    | none => rw [hp] at h; injection h with h; exact ⟨s, h.symm⟩

theorem coerceRow_dt {a : Row} {t : ℤ} (h : a.gameDate = DateV.dt t) :
    coerceRow a = Except.ok a := by
  simp only [coerceRow, h]

/-! Claim theorems. -/

/-- Claim C7: `add_possessions` computes the possessions estimate of every
row as exactly `FGA + 0.44*FTA - OREB + TOV`; on the example row with
FGA=80, FTA=20, OREB=10, TOV=15 the value is 93.8. -/
theorem possessions_formula :
    (∀ tbl : Table, (addPossessions tbl).rows = tbl.rows.map possRow) ∧
    (∀ r : Row, (possRow r).poss =
      some (r.fga + (44 : ℚ) / 100 * r.fta - r.oreb + r.tov)) ∧
    (possRow exPossRow).poss = some ((938 : ℚ) / 10) :=
  ⟨fun _ => rfl, fun _ => rfl, by simp [possRow, exPossRow]; norm_num⟩

/-- Claim C6 (amended): on a row with FGA = 0, `add_shooting_metrics` always
sets eFG to the missing value, but sets TS to missing exactly when FTA is
also 0; with FTA nonzero, TS is the real number PTS / (2*0.44*FTA). -/
theorem shooting_fga_zero :
    (∀ tbl : Table, (addShootingMetrics tbl).rows = tbl.rows.map shootRow) ∧
    (∀ r : Row, r.fga = 0 →
      (shootRow r).efg = none ∧
      ((shootRow r).ts = none ↔ r.fta = 0) ∧
      (r.fta ≠ 0 →
        (shootRow r).ts = some (r.pts / (2 * ((44 : ℚ) / 100) * r.fta)))) := by
  refine ⟨fun _ => rfl, fun r h0 => ⟨?_, ?_, ?_⟩⟩
  · simp [shootRow, h0]
  · simp only [shootRow, h0, zero_add]
    constructor
    · intro h
      by_cases hc : (44 : ℚ) / 100 * r.fta = 0
      · rcases mul_eq_zero.mp hc with hc' | hc'
        · norm_num at hc'
        · exact hc'
      · simp [hc] at h
    · intro h
      simp [h]
  · intro hfta
    have hc : (44 : ℚ) / 100 * r.fta ≠ 0 := by
      intro hc
      rcases mul_eq_zero.mp hc with hc' | hc'
      · norm_num at hc'
      · exact hfta hc'
    simp only [shootRow, h0, zero_add, if_neg hc]
    rw [mul_assoc]

/-- Counterexample to claim C6 as stated: a row with FGA=0, FTA=20, PTS=10
gets eFG missing but TS = 25/44, a real value, not the missing marker. -/
theorem shooting_fga_zero_cx :
    (addShootingMetrics cxTbl).rows.map (fun r => (r.efg, r.ts)) =
      [(none, some ((25 : ℚ) / 44))] := by
  simp [addShootingMetrics, cxTbl, cxRow, shootRow]
  norm_num

/-- Witness for C6's theorem at the concrete FGA=0, FTA=20 row. -/
theorem shooting_fga_zero_witness :
    (shootRow cxRow).efg = none ∧
    ((shootRow cxRow).ts = none ↔ cxRow.fta = 0) ∧
    (cxRow.fta ≠ 0 →
      (shootRow cxRow).ts = some (cxRow.pts / (2 * ((44 : ℚ) / 100) * cxRow.fta))) :=
  shooting_fga_zero.2 cxRow (by decide)

/-- Claim C3 (amended): `apply_time_window_team_games` fails with
`InvalidWindowError` exactly when the window string is neither `SEASON` nor a
`LAST_`-prefixed string whose piece after the first underscore parses as an
integer — and such failures are its only errors.  Negative or zero suffixes
such as `LAST_-3` parse as integers, so they are accepted, not rejected. -/
theorem window_validation (df : Table) (w : String) :
    (applyTimeWindowTeamGames df w = Except.error (PipeError.invalidWindow w) ↔
      ¬ (w = "SEASON" ∨ (listPre (("LAST_").data) w.data = true ∧
          (pyIntOfChars ((splitChar '_' w.data).getD 1 [])).isSome = true))) ∧
    (∀ e, applyTimeWindowTeamGames df w = Except.error e →
      e = PipeError.invalidWindow w) := by
  by_cases h1 : w = "SEASON"
  · simp [applyTimeWindowTeamGames, parseWindow, h1]
  · cases h2 : listPre (("LAST_").data) w.data with
    | false => simp [applyTimeWindowTeamGames, parseWindow, h1, h2]
    | true =>
      cases h3 : pyIntOfChars ((splitChar '_' w.data)[1]?.getD []) with
      | none => simp [applyTimeWindowTeamGames, parseWindow, List.getD, h1, h2, h3]
      | some n => simp [applyTimeWindowTeamGames, parseWindow, List.getD, h1, h2, h3]

/-- Counterexample to claim C3 as stated: the window `LAST_-3` (negative N)
is not rejected — it returns a table (here with zero rows, the
pandas negative-`head` behaviour), not an `InvalidWindowError`. -/
theorem window_negative_accepted :
    applyTimeWindowTeamGames exC3Tbl ("LAST_-3") =
      Except.ok (Table.mk requiredCols []) := by decide

/-- Witness for C3's amended theorem at a concrete invalid window string. -/
theorem window_validation_witness :
    applyTimeWindowTeamGames exC3Tbl ("FOO") =
      Except.error (PipeError.invalidWindow ("FOO")) :=
  (window_validation exC3Tbl ("FOO")).1.mpr (by decide)

/-- Claim C5: the normalizer fails with a missing-fields error exactly when
some required column is absent, the error lists exactly the missing required
columns, and on success it returns the same columns with every date coerced
to a parsed datetime. -/
theorem normalize_missing_fields (tbl : Table) :
    ((∃ m, normalizeTeamGameDf tbl = Except.error (PipeError.missingFields m)) ↔
      ∃ c ∈ requiredCols, ¬ c ∈ tbl.cols) ∧
    (∀ m, normalizeTeamGameDf tbl = Except.error (PipeError.missingFields m) →
      ∀ c, (c ∈ m ↔ c ∈ requiredCols ∧ ¬ c ∈ tbl.cols)) ∧
    (∀ out, normalizeTeamGameDf tbl = Except.ok out →
      out.cols = tbl.cols ∧
      List.Forall₂ (fun r0 r1 => ∃ t, r1 = { r0 with gameDate := DateV.dt t })
        tbl.rows out.rows) := by
  by_cases hm : requiredCols.filter (fun c => decide (¬ c ∈ tbl.cols)) = []
  · have hnf : normalizeTeamGameDf tbl =
        (mapE coerceRow tbl.rows).map fun rs => Table.mk tbl.cols rs := by
      simp only [normalizeTeamGameDf]
      rw [if_pos hm]
    refine ⟨⟨?_, ?_⟩, ?_, ?_⟩
    · rintro ⟨m, h⟩
      rw [hnf] at h
      cases hE : mapE coerceRow tbl.rows with
      | ok rs => rw [hE] at h; simp [Except.map] at h
      | error e =>
        rw [hE] at h
        obtain ⟨a, _, ha⟩ := mapE_error_mem hE
        obtain ⟨s, rfl⟩ := coerceRow_error_shape ha
        simp [Except.map] at h
    · rintro ⟨c, hc, hnc⟩
      have := List.filter_eq_nil_iff.mp hm c hc
      simp [hnc] at this
    · intro m h
      rw [hnf] at h
      cases hE : mapE coerceRow tbl.rows with
      | ok rs => rw [hE] at h; simp [Except.map] at h
      | error e =>
        rw [hE] at h
        obtain ⟨a, _, ha⟩ := mapE_error_mem hE
        obtain ⟨s, rfl⟩ := coerceRow_error_shape ha
        simp [Except.map] at h
    · intro out h
      rw [hnf] at h
      cases hE : mapE coerceRow tbl.rows with
      | error e => rw [hE] at h; simp [Except.map] at h
      | ok rs =>
        rw [hE] at h
        simp only [Except.map] at h
        injection h with h
        refine ⟨by rw [← h], ?_⟩
        rw [← h]
        exact (mapE_ok_forall2 hE).imp fun a b hab => coerceRow_ok_shape hab
  · have hnf : normalizeTeamGameDf tbl =
        Except.error (PipeError.missingFields
          (requiredCols.filter fun c => decide (¬ c ∈ tbl.cols))) := by
      simp only [normalizeTeamGameDf]
      rw [if_neg hm]
    refine ⟨⟨?_, ?_⟩, ?_, ?_⟩
    · intro _
      obtain ⟨c, hc⟩ := List.exists_mem_of_ne_nil _ hm
      rw [List.mem_filter] at hc
      exact ⟨c, hc.1, of_decide_eq_true hc.2⟩
    · intro _
      exact ⟨_, hnf⟩
    · intro m h c
      rw [hnf] at h
      injection h with h
      injection h with h
      rw [← h, List.mem_filter]
      simp
    · intro out h
      rw [hnf] at h
      cases h

/-- Witness for C5's theorem on a table lacking the `PTS` column. -/
theorem normalize_missing_fields_witness :
    ("PTS" ∈ ["PTS"] ↔ ("PTS" ∈ requiredCols ∧ ¬ "PTS" ∈ exBadTbl.cols)) :=
  (normalize_missing_fields exBadTbl).2.1 (["PTS"]) (by decide) ("PTS")

theorem flatMap_filter_aux {l : List α} {f : α → List β} {p : α → Bool}
    (h : ∀ a ∈ l, p a = false → f a = []) :
    l.flatMap f = (l.filter p).flatMap f := by
  induction l with
  | nil => rfl
  | cons a as ih =>
    have ih' := ih fun x hx => h x (List.mem_cons_of_mem a hx)
    cases hpa : p a with
    | true => simp [List.filter_cons, hpa, List.flatMap_cons, ih']
    | false =>
      simp [List.filter_cons, hpa, List.flatMap_cons, ih',
        h a (List.mem_cons_self a as) hpa]

theorem length_two_of_mem {l : List α} {r s : α} (hl : l.length = 2)
    (hr : r ∈ l) (hs : s ∈ l) (hne : r ≠ s) : l = [r, s] ∨ l = [s, r] := by
  obtain ⟨a, b, rfl⟩ := List.length_eq_two.mp hl
  simp only [List.mem_cons, List.not_mem_nil, or_false] at hr hs
  rcases hr with rfl | rfl <;> rcases hs with rfl | rfl
  · exact absurd rfl hne
  · left; rfl
  · right; rfl
  · exact absurd rfl hne

theorem pairSelect (rows : List Row) (q : PRow → Bool) :
    (pairTeamOpponent rows).filter q =
      rows.flatMap fun b =>
        ((rows.filter fun o =>
            decide (b.gameId = o.gameId ∧ b.gameDate = o.gameDate)).filter
          fun o => q (mkPair b o) && decide (b.teamId ≠ o.teamId)).map (mkPair b) := by
  unfold pairTeamOpponent
  rw [List.filter_filter, List.filter_flatMap]
  congr 1
  funext b
  rw [List.filter_map]
  rfl

theorem pair_mem_shape {rows : List Row} {p : PRow} (hp : p ∈ pairTeamOpponent rows) :
    ∃ b ∈ rows, ∃ o ∈ rows, p = mkPair b o ∧ b.gameId = o.gameId ∧
      b.gameDate = o.gameDate ∧ b.teamId ≠ o.teamId := by
  unfold pairTeamOpponent at hp
  rw [List.mem_filter] at hp
  obtain ⟨hmem, hne⟩ := hp
  rw [List.mem_flatMap] at hmem
  obtain ⟨b, hb, hmap⟩ := hmem
  rw [List.mem_map] at hmap
  obtain ⟨o, ho, rfl⟩ := hmap
  rw [List.mem_filter] at ho
  obtain ⟨ho, hkeys⟩ := ho
  have hkeys := of_decide_eq_true hkeys
  exact ⟨b, hb, o, ho, rfl, hkeys.1, hkeys.2, of_decide_eq_true hne⟩

/-- Claim C1: on input whose rows come in two-team games (exactly two rows
per game identifier, equal dates, distinct team ids), `pair_team_opponent`
produces, for each row, exactly one paired row — the one joining it to the
other team of its game, so its own points/possessions appear as "for" and
the opponent's as "against" — and self-pairs never appear in any output. -/
theorem pairing_two_team_games (rows : List Row)
    (hdate : ∀ r1 ∈ rows, ∀ r2 ∈ rows, r1.gameId = r2.gameId →
      r1.gameDate = r2.gameDate)
    (hcount : ∀ r ∈ rows,
      (rows.filter fun x => decide (x.gameId = r.gameId)).length = 2) :
    (∀ p ∈ pairTeamOpponent rows, p.teamId ≠ p.oppTeamId) ∧
    (∀ r ∈ rows, ∀ s ∈ rows, r.gameId = s.gameId → r.teamId ≠ s.teamId →
      (pairTeamOpponent rows).filter
          (fun p => decide (p.gameId = r.gameId ∧ p.teamId = r.teamId)) =
        [mkPair r s]) := by
  constructor
  · intro p hp
    obtain ⟨b, _, o, _, rfl, _, _, hbo⟩ := pair_mem_shape hp
    exact hbo
  · intro r hr s hs hgid hteam
    have hst : s.teamId ≠ r.teamId := fun h => hteam h.symm
    have hrs : r ≠ s := fun h => hteam (by rw [h])
    have hsr : s ∈ rows.filter fun x => decide (x.gameId = r.gameId) :=
      List.mem_filter.mpr ⟨hs, decide_eq_true hgid.symm⟩
    have hrr : r ∈ rows.filter fun x => decide (x.gameId = r.gameId) :=
      List.mem_filter.mpr ⟨hr, decide_eq_true rfl⟩
    have hfg := length_two_of_mem (hcount r hr) hrr hsr hrs
    rw [pairSelect]
    rw [flatMap_filter_aux (p := fun b =>
      decide (b.gameId = r.gameId ∧ b.teamId = r.teamId))
      (fun b _ hb => by
        have : ∀ o : Row,
            (decide ((mkPair b o).gameId = r.gameId ∧ (mkPair b o).teamId = r.teamId)
              && decide (b.teamId ≠ o.teamId)) = false := by
          intro o
          simp only [mkPair] at hb ⊢
          rw [hb]
          rfl
        rw [List.filter_congr fun o _ => this o]
        simp)]
    have hp : rows.filter (fun b =>
        decide (b.gameId = r.gameId ∧ b.teamId = r.teamId)) = [r] := by
      have hsplit : (fun b : Row =>
          decide (b.gameId = r.gameId ∧ b.teamId = r.teamId)) = fun b =>
            decide (b.teamId = r.teamId) && decide (b.gameId = r.gameId) := by
        funext b
        rw [Bool.decide_and, Bool.and_comm]
      rw [hsplit, ← List.filter_filter]
      rcases hfg with hfg | hfg <;> rw [hfg] <;> simp [hst]
    rw [hp]
    have hmatch : rows.filter (fun o =>
        decide (r.gameId = o.gameId ∧ r.gameDate = o.gameDate)) =
        rows.filter fun x => decide (x.gameId = r.gameId) := by
      apply List.filter_congr
      intro o ho
      by_cases hog : o.gameId = r.gameId
      · have hd := hdate o ho r hr hog
        rw [decide_eq_true (p := r.gameId = o.gameId ∧ r.gameDate = o.gameDate)
          ⟨hog.symm, hd.symm⟩, decide_eq_true hog]
      · have hro : ¬ r.gameId = o.gameId := fun h => hog h.symm
        simp [hog, hro]
    simp only [List.flatMap_cons, List.flatMap_nil, List.append_nil]
    rw [hmatch]
    have hPr : (decide ((mkPair r r).gameId = r.gameId ∧ (mkPair r r).teamId = r.teamId)
        && decide (r.teamId ≠ r.teamId)) = false := by
      simp
    have hPs : (decide ((mkPair r s).gameId = r.gameId ∧ (mkPair r s).teamId = r.teamId)
        && decide (r.teamId ≠ s.teamId)) = true := by
      simp only [mkPair]
      simp [hteam]
    rcases hfg with hfg | hfg <;> rw [hfg] <;>
      simp only [List.filter_cons, List.filter_nil, hPr, hPs] <;>
      simp [List.map_cons]

/-- Witness for C1's theorem on the two-team example game: Team A's single
paired row carries PTS_FOR=100 and PTS_AGAINST=90. -/
theorem pairing_two_team_games_witness :
    (pairTeamOpponent ex8Tbl.rows).filter
        (fun p => decide (p.gameId = ex8RowA.gameId ∧ p.teamId = ex8RowA.teamId)) =
      [mkPair ex8RowA ex8RowB] :=
  (pairing_two_team_games ex8Tbl.rows (by decide) (by decide)).2
    ex8RowA (by decide) ex8RowB (by decide) (by decide) (by decide)

/-- Claim C10: `pair_team_opponent` joins on equality of both the game
identifier and the game date; two rows sharing a game identifier but
carrying different dates therefore produce no paired row for that game. -/
theorem pairing_requires_equal_dates (rows : List Row) :
    (∀ p ∈ pairTeamOpponent rows, ∃ b ∈ rows, ∃ o ∈ rows,
      p = mkPair b o ∧ b.gameId = o.gameId ∧ b.gameDate = o.gameDate ∧
      b.teamId ≠ o.teamId) ∧
    (∀ g : String, ∀ r s : Row,
      rows.filter (fun x => decide (x.gameId = g)) = [r, s] →
      r.gameDate ≠ s.gameDate →
      (pairTeamOpponent rows).filter (fun p => decide (p.gameId = g)) = []) := by
  constructor
  · intro p hp
    exact pair_mem_shape hp
  · intro g r s hflt hne
    apply List.filter_eq_nil_iff.mpr
    intro p hp hpg
    have hg : p.gameId = g := of_decide_eq_true hpg
    obtain ⟨b, hb, o, ho, rfl, hbid, hbdate, hbteam⟩ := pair_mem_shape hp
    have hbg : b.gameId = g := hg
    have hbmem : b ∈ rows.filter (fun x => decide (x.gameId = g)) :=
      List.mem_filter.mpr ⟨hb, decide_eq_true hbg⟩
    have homem : o ∈ rows.filter (fun x => decide (x.gameId = g)) :=
      List.mem_filter.mpr ⟨ho, decide_eq_true (by rw [← hbid]; exact hbg)⟩
    rw [hflt] at hbmem homem
    simp only [List.mem_cons, List.not_mem_nil, or_false] at hbmem homem
    have hbo : b ≠ o := fun h => hbteam (by rw [h])
    rcases hbmem with rfl | rfl <;> rcases homem with rfl | rfl
    · exact hbo rfl
    · exact hne hbdate
    · exact hne hbdate.symm
    · exact hbo rfl

/-- Witness for C10's theorem: a shared game identifier with mismatched
dates yields an empty paired output for that game. -/
theorem pairing_requires_equal_dates_witness :
    (pairTeamOpponent exC10Rows).filter
        (fun p => decide (p.gameId = "G9")) = [] :=
  (pairing_requires_equal_dates exC10Rows).2 ("G9")
    (mkR ("G9") 20240105 1 ("AAA") 80 70) (mkR ("G9") 20240106 2 ("BBB") 75 70)
    (by decide) (by decide)

theorem ghGo_filter (key : α → ℤ) (bound : ℤ → ℕ) (t : ℤ) :
    ∀ (l : List α) (seen : ℤ → ℕ),
      (ghGo key bound seen l).filter (fun x => decide (key x = t)) =
        (l.filter fun x => decide (key x = t)).take (bound t - seen t) := by
  intro l
  induction l with
  | nil => intro seen; simp [ghGo]
  | cons a as ih =>
    intro seen
    simp only [ghGo]
    by_cases hk : key a = t
    · have hseen2 : (if t = key a then seen t + 1 else seen t) = seen t + 1 :=
        if_pos hk.symm
      by_cases hlt : seen (key a) < bound (key a)
      · rw [if_pos hlt, List.filter_cons, List.filter_cons,
          if_pos (decide_eq_true hk), if_pos (decide_eq_true hk), ih, hseen2]
        rw [hk] at hlt
        have hsub : bound t - seen t = (bound t - (seen t + 1)) + 1 := by omega
        rw [hsub, List.take_succ_cons]
      · rw [if_neg hlt, ih, hseen2, List.filter_cons, if_pos (decide_eq_true hk)]
        rw [hk] at hlt
        have h1 : bound t - (seen t + 1) = 0 := by omega
        have h2 : bound t - seen t = 0 := by omega
        rw [h1, h2]
        simp
    · have hseen2 : (if t = key a then seen t + 1 else seen t) = seen t :=
        if_neg fun h => hk h.symm
      have hfa : (decide (key a = t)) = false := decide_eq_false hk
      by_cases hlt : seen (key a) < bound (key a)
      · rw [if_pos hlt, List.filter_cons, if_neg (by simp [hfa]), ih, hseen2,
          List.filter_cons, if_neg (by simp [hfa])]
      · rw [if_neg hlt, ih, hseen2, List.filter_cons, if_neg (by simp [hfa])]

theorem filter_orderedInsert (key dk : α → ℤ) (t : ℤ) (a : α) :
    ∀ L : List α, L.Pairwise (lexRel key dk) →
      (List.orderedInsert (lexRel key dk) a L).filter (fun x => decide (key x = t)) =
        if key a = t
        then List.orderedInsert (dRel dk) a (L.filter fun x => decide (key x = t))
        else L.filter fun x => decide (key x = t) := by
  intro L
  induction L with
  | nil =>
    intro _
    by_cases hk : key a = t <;> simp [List.orderedInsert, hk]
  | cons b L' ih =>
    intro hp
    have hp' := (List.pairwise_cons.mp hp).2
    have hpb := (List.pairwise_cons.mp hp).1
    simp only [List.orderedInsert]
    by_cases hr : lexRel key dk a b
    · rw [if_pos hr]
      by_cases hk : key a = t
      · rw [if_pos hk, List.filter_cons (x := a), if_pos (decide_eq_true hk)]
        cases hf : (b :: L').filter (fun x => decide (key x = t)) with
        | nil => simp [List.orderedInsert]
        | cons c rest =>
          have hc : c ∈ (b :: L').filter (fun x => decide (key x = t)) := by
            rw [hf]; exact List.mem_cons_self c rest
          rw [List.mem_filter] at hc
          have hct : key c = t := of_decide_eq_true hc.2
          have hlex : lexRel key dk a c := by
            rcases List.mem_cons.mp hc.1 with rfl | hcl
            · exact hr
            · exact IsTrans.trans a b c hr (hpb c hcl)
          have hdle : dRel dk a c := by
            rcases hlex with h | ⟨_, h⟩
            · rw [hk, hct] at h; exact absurd h (lt_irrefl t)
            · exact h
          rw [List.orderedInsert, if_pos hdle]
      · rw [if_neg hk, List.filter_cons (x := a), if_neg (by simp [hk])]
    · rw [if_neg hr]
      by_cases hk : key a = t
      · rw [if_pos hk]
        by_cases hbt : key b = t
        · rw [List.filter_cons (x := b), if_pos (decide_eq_true hbt),
            List.filter_cons (x := b), if_pos (decide_eq_true hbt)]
          rw [ih hp', if_pos hk]
          have hknab : key a = key b := by rw [hk, hbt]
          have hnd : ¬ dRel dk a b := fun hd => hr (Or.inr ⟨hknab, hd⟩)
          rw [List.orderedInsert, if_neg hnd]
        · rw [List.filter_cons (x := b), if_neg (by simp [hbt]),
            List.filter_cons (x := b), if_neg (by simp [hbt])]
          rw [ih hp', if_pos hk]
      · rw [if_neg hk]
        by_cases hbt : key b = t
        · rw [List.filter_cons (x := b), if_pos (decide_eq_true hbt),
            List.filter_cons (x := b), if_pos (decide_eq_true hbt)]
          rw [ih hp', if_neg hk]
        · rw [List.filter_cons (x := b), if_neg (by simp [hbt]),
            List.filter_cons (x := b), if_neg (by simp [hbt])]
          rw [ih hp', if_neg hk]


theorem filter_insertionSort (key dk : α → ℤ) (t : ℤ) :
    ∀ l : List α,
      (List.insertionSort (lexRel key dk) l).filter (fun x => decide (key x = t)) =
        List.insertionSort (dRel dk) (l.filter fun x => decide (key x = t)) := by
  intro l
  induction l with
  | nil => rfl
  | cons a l ih =>
    simp only [List.insertionSort]
    rw [filter_orderedInsert key dk t a _ (List.sorted_insertionSort (lexRel key dk) l)]
    by_cases hk : key a = t
    · rw [if_pos hk, ih, List.filter_cons, if_pos (decide_eq_true hk),
        List.insertionSort]
    · rw [if_neg hk, ih, List.filter_cons, if_neg (by simp [hk])]

/-- Claim C4: for a valid positive window `LAST_N`, the window filter
returns, per team independently, exactly the `min(N, game count)`
chronologically most recent rows of that team — the first `N` of that team's
rows under a stable date-descending sort (ties left in original order). -/
theorem lastN_window_per_team (df : Table) (w : String) (n : ℤ) (res : Table) (t : ℤ)
    (hp : parseWindow w = Except.ok (WSpec.lastN n)) (hn : 0 < n)
    (hres : applyTimeWindowTeamGames df w = Except.ok res) :
    res.rows.filter (fun r => decide (r.teamId = t)) =
      (List.insertionSort (dRel rowDk)
        (df.rows.filter fun r => decide (r.teamId = t))).take n.toNat ∧
    (res.rows.filter (fun r => decide (r.teamId = t))).length =
      min n.toNat (df.rows.filter fun r => decide (r.teamId = t)).length := by
  have hres' : res = Table.mk df.cols
      (pdHead Row.teamId n (List.insertionSort (lexRel Row.teamId rowDk) df.rows)) := by
    unfold applyTimeWindowTeamGames at hres
    rw [hp] at hres
    injection hres with h
    exact h.symm
  subst hres'
  have hmain : (pdHead Row.teamId n
        (List.insertionSort (lexRel Row.teamId rowDk) df.rows)).filter
      (fun r => decide (r.teamId = t)) =
      (List.insertionSort (dRel rowDk)
        (df.rows.filter fun r => decide (r.teamId = t))).take n.toNat := by
    unfold pdHead
    rw [if_pos (le_of_lt hn), ghGo_filter, filter_insertionSort]
    norm_num
  refine ⟨hmain, ?_⟩
  show (List.filter _ _).length = _
  rw [hmain, List.length_take]
  congr 1
  exact ((List.perm_insertionSort (dRel rowDk) _).length_eq)

/-- Witness for C4's theorem: `LAST_1` on a team with two games keeps
exactly its most recent row. -/
theorem lastN_window_per_team_witness :
    (Table.mk requiredCols [mkR ("G4") 20240102 1 ("AAA") 30 40]).rows.filter
        (fun r => decide (r.teamId = 1)) =
      (List.insertionSort (dRel rowDk)
        (exW4Tbl.rows.filter fun r => decide (r.teamId = 1))).take (1 : ℤ).toNat ∧
    ((Table.mk requiredCols [mkR ("G4") 20240102 1 ("AAA") 30 40]).rows.filter
        (fun r => decide (r.teamId = 1))).length =
      min (1 : ℤ).toNat (exW4Tbl.rows.filter fun r => decide (r.teamId = 1)).length :=
  lastN_window_per_team exW4Tbl ("LAST_1") 1
    (Table.mk requiredCols [mkR ("G4") 20240102 1 ("AAA") 30 40]) 1
    (by decide) (by decide) (by decide)

/-- Claim C2: every row of `aggregate_team_with_defense`'s output satisfies
the spec's rating formulas over its team's windowed paired rows, and on the
single-game example Team A's ratings are 100*100/95, 100*90/95 and their
difference. -/
theorem defense_aggregate_formulas :
    (∀ (df : Table) (w : String) (W : List PRow) (out : List AggRow),
      windowPaired df w = Except.ok W →
      aggregateTeamWithDefense df w = Except.ok out →
      ∀ g ∈ out, defenseFormulaSpec W g) ∧
    ((aggregateTeamWithDefense ex8Tbl ("SEASON")).map
        (fun out => out.map fun g => (g.teamId, g.ortg, g.drtg, g.netRtg)) =
      Except.ok
        [((1 : ℤ), some ((2000 : ℚ) / 19), some ((1800 : ℚ) / 19),
            some ((200 : ℚ) / 19)),
         ((2 : ℤ), some ((1800 : ℚ) / 19), some ((2000 : ℚ) / 19),
            some (-((200 : ℚ) / 19)))]) := by
  constructor
  · intro df w W out hW hout g hg
    have hout2 : out =
        (eraseDupsFirst (W.map fun p => (p.teamId, p.teamAbbr))).map (aggRowFor W) := by
      unfold aggregateTeamWithDefense at hout
      rw [hW] at hout
      simp only [Except.map] at hout
      injection hout with hout
      exact hout.symm
    subst hout2
    rw [List.mem_map] at hg
    obtain ⟨k, hk, rfl⟩ := hg
    unfold defenseFormulaSpec
    refine ⟨rfl, rfl, rfl, rfl, rfl, rfl, rfl, ?_, rfl⟩
    have hnet : (aggRowFor W k).netRtg =
        match (aggRowFor W k).ortg, (aggRowFor W k).drtg with
        | some x, some y => some (x - y)
        | _, _ => none := rfl
    intro x y hx hy
    rw [hnet, hx, hy]
  · have hW : windowPaired ex8Tbl ("SEASON") = Except.ok exW8 := by decide
    have hout : aggregateTeamWithDefense ex8Tbl ("SEASON") = Except.ok
        ((eraseDupsFirst (exW8.map fun p => (p.teamId, p.teamAbbr))).map
          (aggRowFor exW8)) := by
      unfold aggregateTeamWithDefense
      rw [hW]
      rfl
    have hkeys : eraseDupsFirst (exW8.map fun p => (p.teamId, p.teamAbbr)) =
        [((1 : ℤ), "AAA"), ((2 : ℤ), "BBB")] := by decide
    rw [hout, hkeys]
    simp only [List.map_cons, List.map_nil, Except.map]
    norm_num [aggRowFor, safeDiv, sumOpt, exW8, mkPair, ex8RowA, ex8RowB, mkR,
      List.filterMap_cons, List.filterMap_nil, List.sum_cons, List.sum_nil, id]

/-- Witness for C2's theorem: Team A's aggregate row of the example game
satisfies the rating formulas. -/
theorem defense_aggregate_formulas_witness :
    defenseFormulaSpec exW8 (aggRowFor exW8 ((1 : ℤ), "AAA")) :=
  defense_aggregate_formulas.1 ex8Tbl ("SEASON") exW8
    ((eraseDupsFirst (exW8.map fun p => (p.teamId, p.teamAbbr))).map (aggRowFor exW8))
    (by decide) (by rfl) (aggRowFor exW8 ((1 : ℤ), "AAA"))
    (List.mem_map.mpr ⟨((1 : ℤ), "AAA"), by decide, rfl⟩)

theorem forall2_mem_right {R : α → β → Prop} :
    ∀ {l : List α} {l' : List β}, List.Forall₂ R l l' → ∀ b ∈ l', ∃ a ∈ l, R a b := by
  intro l l' h
  induction h with
  | nil => intro b hb; cases hb
  | cons hR hF ih =>
    intro b hb
    rcases List.mem_cons.mp hb with rfl | hb'
    · exact ⟨_, List.mem_cons_self _ _, hR⟩
    · obtain ⟨a, ha, hr⟩ := ih b hb'
      exact ⟨a, List.mem_cons_of_mem _ ha, hr⟩

theorem mem_insertCol_of_mem {c : String} (d : String) {cs : List String}
    (h : c ∈ cs) : c ∈ insertCol d cs := by
  unfold insertCol
  by_cases hd : d ∈ cs
  · rw [if_pos hd]; exact h
  · rw [if_neg hd]; exact List.mem_append_left _ h

theorem mem_insertCol_self (c : String) (cs : List String) : c ∈ insertCol c cs := by
  unfold insertCol
  by_cases hd : c ∈ cs
  · rw [if_pos hd]; exact hd
  · rw [if_neg hd]; exact List.mem_append_right _ (List.mem_singleton.mpr rfl)

theorem insertCol_of_mem {c : String} {cs : List String} (h : c ∈ cs) :
    insertCol c cs = cs := if_pos h

theorem normalize_ok_facts {tbl t1 : Table}
    (hn : normalizeTeamGameDf tbl = Except.ok t1) :
    t1.cols = tbl.cols ∧ (∀ c ∈ requiredCols, c ∈ tbl.cols) ∧
    (∀ r ∈ t1.rows, ∃ z, r.gameDate = DateV.dt z) := by
  unfold normalizeTeamGameDf at hn
  by_cases hm : requiredCols.filter (fun c => decide (¬ c ∈ tbl.cols)) = []
  · rw [if_pos hm] at hn
    cases hE : mapE coerceRow tbl.rows with
    | error e => rw [hE] at hn; simp [Except.map] at hn
    | ok rs =>
      rw [hE] at hn
      simp only [Except.map] at hn
      injection hn with hn
      refine ⟨by rw [← hn], ?_, ?_⟩
      · intro c hc
        by_contra hcc
        have hmem : c ∈ requiredCols.filter (fun c => decide (¬ c ∈ tbl.cols)) :=
          List.mem_filter.mpr ⟨hc, decide_eq_true hcc⟩
        rw [hm] at hmem
        cases hmem
      · intro r hr
        rw [← hn] at hr
        obtain ⟨a, _, ha⟩ := forall2_mem_right (mapE_ok_forall2 hE) r hr
        obtain ⟨z, rfl⟩ := coerceRow_ok_shape ha
        exact ⟨z, rfl⟩
  · rw [if_neg hm] at hn; cases hn

/-- Claim C9: the normalize/possessions/shooting pipeline is idempotent —
whenever `prepare_team_games_for_metrics` succeeds, running it again on its
own output succeeds and changes nothing. -/
theorem prepare_idempotent (tbl out : Table)
    (h : prepareTeamGamesForMetrics tbl = Except.ok out) :
    prepareTeamGamesForMetrics out = Except.ok out := by
  unfold prepareTeamGamesForMetrics at h ⊢
  cases hn : normalizeTeamGameDf tbl with
  | error e => rw [hn] at h; simp [Except.map] at h
  | ok t1 =>
    rw [hn] at h
    simp only [Except.map] at h
    injection h with h
    obtain ⟨hcols1, hreq1, hdt1⟩ := normalize_ok_facts hn
    have houtcols : out.cols =
        insertCol ("TS") (insertCol ("eFG") (insertCol ("POSS") t1.cols)) := by
      rw [← h]; rfl
    have houtrows : out.rows = t1.rows.map fun r => shootRow (possRow r) := by
      rw [← h]
      show ((t1.rows.map possRow).map shootRow) = _
      rw [List.map_map]
      rfl
    have hreq2 : requiredCols.filter (fun c => decide (¬ c ∈ out.cols)) = [] := by
      apply List.filter_eq_nil_iff.mpr
      intro c hc hdec
      apply of_decide_eq_true hdec
      rw [houtcols]
      refine mem_insertCol_of_mem _ (mem_insertCol_of_mem _ (mem_insertCol_of_mem _ ?_))
      rw [hcols1]
      exact hreq1 c hc
    have hdt2 : ∀ r ∈ out.rows, ∃ z, r.gameDate = DateV.dt z := by
      rw [houtrows]
      intro r hr
      rw [List.mem_map] at hr
      obtain ⟨r0, hr0, rfl⟩ := hr
      obtain ⟨z, hz⟩ := hdt1 r0 hr0
      exact ⟨z, hz⟩
    have hmapE : mapE coerceRow out.rows = Except.ok out.rows :=
      mapE_of_ok_id fun r hr => by
        obtain ⟨z, hz⟩ := hdt2 r hr
        exact coerceRow_dt hz
    have hnorm2 : normalizeTeamGameDf out = Except.ok out := by
      unfold normalizeTeamGameDf
      rw [if_pos hreq2, hmapE]
      rfl
    rw [hnorm2]
    simp only [Except.map]
    have hposs : ("POSS" : String) ∈ out.cols := by
      rw [houtcols]
      exact mem_insertCol_of_mem _ (mem_insertCol_of_mem _ (mem_insertCol_self _ _))
    have hefg : ("eFG" : String) ∈ out.cols := by
      rw [houtcols]
      exact mem_insertCol_of_mem _ (mem_insertCol_self _ _)
    have hts : ("TS" : String) ∈ out.cols := by
      rw [houtcols]
      exact mem_insertCol_self _ _
    have hstep : addShootingMetrics (addPossessions out) =
        Table.mk (insertCol ("TS") (insertCol ("eFG") (insertCol ("POSS") out.cols)))
          ((out.rows.map possRow).map shootRow) := rfl
    have hrowsfix : (out.rows.map possRow).map shootRow = out.rows := by
      rw [List.map_map, houtrows, List.map_map]
      congr 1
    rw [hstep, insertCol_of_mem hposs, insertCol_of_mem hefg, insertCol_of_mem hts,
      hrowsfix]

/-- Witness for C9's theorem: the prepared form of the concrete raw table is
a fixed point of the pipeline. -/
theorem prepare_idempotent_witness :
    prepareTeamGamesForMetrics exPrepOutTbl = Except.ok exPrepOutTbl :=
  prepare_idempotent exPrepTbl exPrepOutTbl (by
    have h1 : normalizeTeamGameDf exPrepTbl = Except.ok
        (Table.mk requiredCols
          [Row.mk ("G7") (DateV.dt 20240102) 1 ("AAA")
            100 80 40 20 10 20 18 10 30 25 15 240 none none none]) := by decide
    unfold prepareTeamGamesForMetrics
    rw [h1]
    simp only [Except.map]
    congr 1
    simp only [addPossessions, addShootingMetrics, exPrepOutTbl, List.map_cons,
      List.map_nil]
    rw [Table.mk.injEq]
    refine ⟨by decide, ?_⟩
    simp only [possRow, shootRow, List.cons.injEq, and_true]
    norm_num)
